import Mathlib

/-!
# Verification of the sql-storage-adapter specification

Shallow embedding of the storage-adapter library (resolver, placeholder
translation, script splitting, row-id normalisation, the blob-persisted
IndexedDB engine's dirty/persistence state machine, and the transaction
wrappers of the Postgres, sql.js and IndexedDB adapters), with theorems
settling the specification's claims about them.
-/

namespace SqlStorage

/-! ## JavaScript value model

A minimal model of the JavaScript values that flow through the adapters'
row-id plumbing: numbers, strings, bigints (modelled with their exact
integer value), and `null`.  An absent value (`undefined`, missing array
cell) is modelled as `Option.none` at the use sites. -/

inductive JsVal where
  | num (n : Int)
  | str (s : String)
  | bigint (n : Int)
  | nullv
  deriving DecidableEq, Repr

/-! ## Row-id normalisation (IndexedDbAdapter.normaliseRowId)

From `IndexedDbAdapter.normaliseRowId`:
numbers and strings pass through, a bigint is stringified via
`toString()`, anything else (including `null`/`undefined`) becomes
`null`.  The argument is `Option JsVal` so that a missing value
(`undefined` from the optional chain) is representable. -/

def normaliseRowId : Option JsVal → JsVal
  | some (.num n) => .num n
  | some (.str s) => .str s
  | some (.bigint n) => .str (toString n)
  | some .nullv => .nullv
  | none => .nullv

/-! ## sql.js adapter `run` result (SqlJsAdapter.run)

From `SqlJsAdapter.run`: the result is
`{ changes: db.getRowsModified(), lastInsertRowid: rawCell ?? null }`.
The raw cell is the first value of `SELECT last_insert_rowid()`; the
`?? null` coalescing replaces a missing cell by `null` and performs no
other normalisation.  The engine is modelled by the two observations the
adapter reads from it. -/

structure SqlJsEngine where
  rowsModified : Nat
  lastRowIdCell : Option JsVal
  deriving DecidableEq, Repr

structure StorageRunResult where
  changes : Nat
  lastInsertRowid : JsVal
  deriving DecidableEq, Repr

def sqlJsRunResult (e : SqlJsEngine) : StorageRunResult :=
  { changes := e.rowsModified
    lastInsertRowid := e.lastRowIdCell.getD .nullv }

/-- From `IndexedDbAdapter.run`: same `changes`, but the raw row-id cell
is passed through `normaliseRowId`. -/
def idbRunResult (e : SqlJsEngine) : StorageRunResult :=
  { changes := e.rowsModified
    lastInsertRowid := normaliseRowId e.lastRowIdCell }

/-! ## Resolver (src/resolver.js)

`resolveStorageAdapter` builds a priority list (environment override
first, then the caller's list, then a runtime-dependent default), maps
each name through a `switch` to a candidate factory, and tries the
candidates in order, collecting every failure cause. -/

/-- The factory selected for a candidate, mirroring the `switch` arms. -/
inductive Factory where
  | betterSqlite (filePath : String)
  | capacitor
  | sqljs
  deriving DecidableEq, Repr

structure Candidate where
  name : String
  factory : Factory
  deriving DecidableEq, Repr

/-- The `switch (name)` in `resolveStorageAdapter`: `'better-sqlite3'`
and `'capacitor'` map to their factories; the `'sqljs'` case and the
`default` case both produce `{ name: 'sqljs', factory: sqljs }`. -/
def candidateFor (filePath : String) (name : String) : Candidate :=
  if name = "better-sqlite3" then ⟨name, .betterSqlite filePath⟩
  else if name = "capacitor" then ⟨name, .capacitor⟩
  else ⟨"sqljs", .sqljs⟩

/-- The priority list: `envOverride ? [envOverride] : options.priority ??
(isCapacitorRuntime() ? ['capacitor','sqljs'] : ['better-sqlite3','sqljs'])`. -/
def resolverPriority (envOverride : Option String)
    (optionsPriority : Option (List String)) (capacitorRuntime : Bool) :
    List String :=
  match envOverride with
  | some e => [e]
  | none =>
    match optionsPriority with
    | some l => l
    | none =>
      if capacitorRuntime then ["capacitor", "sqljs"]
      else ["better-sqlite3", "sqljs"]

def resolverCandidates (filePath : String) (envOverride : Option String)
    (optionsPriority : Option (List String)) (capacitorRuntime : Bool) :
    List Candidate :=
  (resolverPriority envOverride optionsPriority capacitorRuntime).map
    (candidateFor filePath)

/-- The attempt loop.  `openResult` models the outcome of
`factory()` followed by `adapter.open(...)` for a candidate: either an
open adapter `A` or a thrown cause `E`.  Failures are appended to the
running error list; if no candidate succeeds the accumulated causes are
surfaced (as `StorageResolutionError(message, errors)`). -/
def attemptCandidates {A E : Type} (openResult : Candidate → Except E A) :
    List Candidate → List E → Except (List E) A
  | [], errs => .error errs
  | c :: rest, errs =>
    match openResult c with
    | .ok a => .ok a
    | .error e => attemptCandidates openResult rest (errs ++ [e])

def resolveStorageAdapter {A E : Type} (filePath : String)
    (envOverride : Option String) (optionsPriority : Option (List String))
    (capacitorRuntime : Bool) (openResult : Candidate → Except E A) :
    Except (List E) A :=
  attemptCandidates openResult
    (resolverCandidates filePath envOverride optionsPriority capacitorRuntime) []

/-- The failure causes of a candidate list, one per failing candidate in
order. -/
def failureCauses {A E : Type} (openResult : Candidate → Except E A) :
    List Candidate → List E :=
  List.filterMap fun c =>
    match openResult c with
    | .ok _ => none
    | .error e => some e

/-- The known adapter kinds accepted by the resolver's `switch`. -/
def knownKinds : List String := ["better-sqlite3", "capacitor", "sqljs"]

/-! ## Last-write-wins conflict resolution

Modelled from the spec: the sync manager's executable conflict-resolution
code is not among the repository's source files (only the design summary
document describes it).  Per the spec, `last-write-wins` keeps the record
with the greater `updated_at`, and equal timestamps prefer the remote
record. -/

structure SyncRecord (V : Type) where
  id : String
  value : V
  updated_at : Int
  deriving DecidableEq, Repr

/-- Modelled from the spec: `last-write-wins` resolution — keep the row
with the greater `updated_at`; ties prefer remote. -/
def lastWriteWins {V : Type} (localRec remoteRec : SyncRecord V) :
    SyncRecord V :=
  if remoteRec.updated_at ≥ localRec.updated_at then remoteRec else localRec

/-! ## A small SQL engine state

The claims about transactions concern committed rows only, so the engine
is modelled as a list of committed rows together with an optional
in-transaction working copy.  `BEGIN` snapshots the committed rows into
the working copy, writes go to the working copy while one is active,
`COMMIT` promotes it and `ROLLBACK` discards it. -/

structure DbState (R : Type) where
  committed : List R
  txn : Option (List R)
  deriving DecidableEq, Repr

/-- The statements the transaction wrappers issue, plus the writes the
caller-provided function performs through the adapter. -/
inductive SqlOp (R : Type) where
  | beginTx
  | commitTx
  | rollbackTx
  | insert (r : R)
  deriving DecidableEq, Repr

def applyOp {R : Type} (d : DbState R) : SqlOp R → DbState R
  | .beginTx => { d with txn := some d.committed }
  | .commitTx => { committed := d.txn.getD d.committed, txn := none }
  | .rollbackTx => { d with txn := none }
  | .insert r =>
    match d.txn with
    | some rows => { d with txn := some (rows ++ [r]) }
    | none => { d with committed := d.committed ++ [r] }

def applyOps {R : Type} (d : DbState R) (ops : List (SqlOp R)) : DbState R :=
  ops.foldl applyOp d

/-! ## PostgresAdapter.transaction

`BEGIN` on a pinned pool client, invoke `fn`, `COMMIT` on resolution;
on a thrown error `ROLLBACK` and rethrow the same error.  The
caller-provided function is modelled by the writes it performs through
the adapter (which, during the span, routes them to the pinned client)
and by its outcome: resolving with a value or throwing an error. -/

def pgTransaction {R A E : Type} (d : DbState R) (writes : List R)
    (outcome : Except E A) : Except E A × DbState R :=
  match outcome with
  | .ok v =>
    (.ok v, applyOp (applyOps (applyOp d .beginTx) (writes.map .insert))
      .commitTx)
  | .error e =>
    (.error e, applyOp (applyOps (applyOp d .beginTx) (writes.map .insert))
      .rollbackTx)

/-- `SqlJsAdapter.transaction`: `db.run('BEGIN TRANSACTION;')`, invoke
`fn`, `db.run('COMMIT;')`; on a thrown error `db.run('ROLLBACK;')` and
rethrow.  Structurally identical to the Postgres wrapper at this level
of abstraction. -/
def sqlJsTransaction {R A E : Type} (d : DbState R) (writes : List R)
    (outcome : Except E A) : Except E A × DbState R :=
  match outcome with
  | .ok v =>
    (.ok v, applyOp (applyOps (applyOp d .beginTx) (writes.map .insert))
      .commitTx)
  | .error e =>
    (.error e, applyOp (applyOps (applyOp d .beginTx) (writes.map .insert))
      .rollbackTx)

/-! ## Blob-persisted engine (IndexedDbAdapter)

State of one adapter instance: the in-memory sql.js database (`none`
when not open), whether the IndexedDB connection is open, the blob held
under key `"db"` in the object store (the exported committed rows), the
auto-save interval handle, the dirty flag and the `autoSave` option. -/

structure IdbState (R : Type) where
  db : Option (DbState R)
  idbConn : Bool
  blob : Option (List R)
  saveTimer : Bool
  dirty : Bool
  autoSave : Bool
  deriving DecidableEq, Repr

/-- `saveToIndexedDb`: no-op unless both the engine and the IndexedDB
connection are open; otherwise export the database, put it under key
`"db"`, and clear `dirty` on success (the put is modelled as
succeeding). -/
def saveToIndexedDb {R : Type} (s : IdbState R) : IdbState R :=
  match s.db with
  | none => s
  | some d =>
    if s.idbConn then { s with blob := some d.committed, dirty := false }
    else s

/-- `persistIfNeeded`: `if (this.autoSave && !this.saveTimer) await
this.saveToIndexedDb()`. -/
def persistIfNeeded {R : Type} (s : IdbState R) : IdbState R :=
  if s.autoSave ∧ ¬s.saveTimer then saveToIndexedDb s else s

/-- `open()`: initialise sql.js, open IndexedDB, load the blob under
`"db"` (constructing the engine from it, or an empty engine), and if
`autoSave` start the interval timer.  `prior` is the blob found in the
store. -/
def idbOpen {R : Type} (prior : Option (List R)) (autoSave : Bool) :
    IdbState R :=
  { db := some { committed := prior.getD [], txn := none }
    idbConn := true
    blob := prior
    saveTimer := autoSave
    dirty := false
    autoSave := autoSave }

/-- One mutating engine step followed by the `run`/`exec` bookkeeping:
apply the statement, set `dirty := true`, `await persistIfNeeded()`.
Requires the engine to be open; `ensureOpen` is modelled at `idbRun`. -/
def idbStep {R : Type} (s : IdbState R) (op : SqlOp R) : IdbState R :=
  match s.db with
  | none => s
  | some d =>
    persistIfNeeded { s with db := some (applyOp d op), dirty := true }

inductive StorageError where
  | notOpen
  deriving DecidableEq, Repr

/-- `IndexedDbAdapter.run` (state effect): `ensureOpen()`, execute the
statement, `dirty = true`, `persistIfNeeded()`. -/
def idbRun {R : Type} (s : IdbState R) (op : SqlOp R) :
    Except StorageError (IdbState R) :=
  match s.db with
  | none => .error .notOpen
  | some _ => .ok (idbStep s op)

/-- Error type of `IndexedDbAdapter.transaction`: the `ensureOpen` guard
or the caller function's own error, rethrown. -/
inductive TxError (E : Type) where
  | notOpen
  | user (e : E)
  deriving DecidableEq, Repr

/-- `IndexedDbAdapter.transaction`: `ensureOpen()`, `run('BEGIN
TRANSACTION')`, invoke `fn` (its writes going through `run`), then
`run('COMMIT')`, `dirty = true`, `persistIfNeeded()`; on a thrown error
`run('ROLLBACK')` and rethrow. -/
def idbTransaction {R A E : Type} (s : IdbState R) (writes : List R)
    (outcome : Except E A) : Except (TxError E) A × IdbState R :=
  match s.db with
  | none => (.error .notOpen, s)
  | some _ =>
    let s1 := idbStep s .beginTx
    let s2 := writes.foldl (fun t r => idbStep t (.insert r)) s1
    match outcome with
    | .ok v =>
      (.ok v, persistIfNeeded { idbStep s2 .commitTx with dirty := true })
    | .error e => (.error (.user e), idbStep s2 .rollbackTx)

/-- `IndexedDbAdapter.close`: clear the interval timer, perform one
final `saveToIndexedDb` if `dirty`, close the engine, close the
IndexedDB handle. -/
def idbClose {R : Type} (s : IdbState R) : IdbState R :=
  let s1 : IdbState R := { s with saveTimer := false }
  let s2 := if s1.dirty then saveToIndexedDb s1 else s1
  { s2 with db := none, idbConn := false }

/-! ## Named-placeholder translation (postgresAdapter.buildNamedStatement)

`buildNamedStatement` performs
`statement.replace(/@([A-Za-z0-9_]+)/g, cb)` where the callback pushes
the captured name onto `order` and returns `'$' + order.length`, and
then resolves `values = order.map(key => named[key])`.  The global
regex replace is embedded as a left-to-right scan with maximal munch:
`mode = some acc` means an `@` has been consumed and `acc` holds the
identifier characters read so far (reversed); an `@` not followed by at
least one identifier character is left in place, exactly as the regex
leaves it unmatched. -/

def isIdentChar (c : Char) : Bool :=
  c.isAlpha || c.isDigit || c = '_'

/-- The text a placeholder is rewritten to: `'$' + n`. -/
def dollarText (n : Nat) : List Char :=
  '$' :: (Nat.repr n).data

def replaceNamedAux : List Char → Option (List Char) → List String →
    List String × List Char
  | [], none, order => (order, [])
  | [], some acc, order =>
    if acc.isEmpty then (order, ['@'])
    else
      let order' := order ++ [String.mk acc.reverse]
      (order', dollarText order'.length)
  | c :: rest, none, order =>
    if c = '@' then replaceNamedAux rest (some []) order
    else
      let (o, t) := replaceNamedAux rest none order
      (o, c :: t)
  | c :: rest, some acc, order =>
    if isIdentChar c then replaceNamedAux rest (some (c :: acc)) order
    else if acc.isEmpty then
      if c = '@' then
        let (o, t) := replaceNamedAux rest (some []) order
        (o, '@' :: t)
      else
        let (o, t) := replaceNamedAux rest none order
        (o, '@' :: c :: t)
    else
      let order' := order ++ [String.mk acc.reverse]
      if c = '@' then
        let (o, t) := replaceNamedAux rest (some []) order'
        (o, dollarText order'.length ++ t)
      else
        let (o, t) := replaceNamedAux rest none order'
        (o, dollarText order'.length ++ c :: t)

structure PreparedStatement (V : Type) where
  text : String
  values : List (Option V)
  deriving DecidableEq, Repr

/-- `buildNamedStatement(statement, named)`.  The name map is a function
to `Option V`; a name missing from the map yields `none`
(JavaScript `named[key]` being `undefined`). -/
def buildNamedStatement {V : Type} (named : String → Option V)
    (statement : String) : PreparedStatement V :=
  let (order, text) := replaceNamedAux statement.data none []
  { text := String.mk text, values := order.map named }

/-- The placeholder occurrences of a statement, in source order, one
entry per occurrence (repeated names repeat). -/
def namedOccurrencesAux : List Char → Option (List Char) → List String
  | [], none => []
  | [], some acc => if acc.isEmpty then [] else [String.mk acc.reverse]
  | c :: rest, none =>
    if c = '@' then namedOccurrencesAux rest (some [])
    else namedOccurrencesAux rest none
  | c :: rest, some acc =>
    if isIdentChar c then namedOccurrencesAux rest (some (c :: acc))
    else if acc.isEmpty then
      if c = '@' then namedOccurrencesAux rest (some [])
      else namedOccurrencesAux rest none
    else
      String.mk acc.reverse ::
        (if c = '@' then namedOccurrencesAux rest (some [])
         else namedOccurrencesAux rest none)

def namedOccurrences (statement : String) : List String :=
  namedOccurrencesAux statement.data none

/-- The translated text with each occurrence numbered sequentially:
the k-th occurrence (0-based, `k` occurrences already emitted) is
rewritten to `$(k+1)`. -/
def renderNamedAux : List Char → Option (List Char) → Nat → List Char
  | [], none, _ => []
  | [], some acc, k => if acc.isEmpty then ['@'] else dollarText (k + 1)
  | c :: rest, none, k =>
    if c = '@' then renderNamedAux rest (some []) k
    else c :: renderNamedAux rest none k
  | c :: rest, some acc, k =>
    if isIdentChar c then renderNamedAux rest (some (c :: acc)) k
    else if acc.isEmpty then
      if c = '@' then '@' :: renderNamedAux rest (some []) k
      else '@' :: c :: renderNamedAux rest none k
    else
      dollarText (k + 1) ++
        (if c = '@' then renderNamedAux rest (some []) (k + 1)
         else c :: renderNamedAux rest none (k + 1))

def renderNamed (statement : String) : List Char :=
  renderNamedAux statement.data none 0

/-- The translation the spec describes (for comparison with
`buildNamedStatement`): each *first* occurrence of a name is assigned
the next numbered position, later occurrences of the same name reuse
that number, and the value list holds one entry per distinct name. -/
def specReplaceNamedAux : List Char → Option (List Char) → List String →
    List String × List Char
  | [], none, seen => (seen, [])
  | [], some acc, seen =>
    if acc.isEmpty then (seen, ['@'])
    else
      let name := String.mk acc.reverse
      if name ∈ seen then (seen, dollarText (seen.indexOf name + 1))
      else (seen ++ [name], dollarText (seen.length + 1))
  | c :: rest, none, seen =>
    if c = '@' then specReplaceNamedAux rest (some []) seen
    else
      let (o, t) := specReplaceNamedAux rest none seen
      (o, c :: t)
  | c :: rest, some acc, seen =>
    if isIdentChar c then specReplaceNamedAux rest (some (c :: acc)) seen
    else if acc.isEmpty then
      if c = '@' then
        let (o, t) := specReplaceNamedAux rest (some []) seen
        (o, '@' :: t)
      else
        let (o, t) := specReplaceNamedAux rest none seen
        (o, '@' :: c :: t)
    else
      let name := String.mk acc.reverse
      if name ∈ seen then
        if c = '@' then
          let (o, t) := specReplaceNamedAux rest (some []) seen
          (o, dollarText (seen.indexOf name + 1) ++ t)
        else
          let (o, t) := specReplaceNamedAux rest none seen
          (o, dollarText (seen.indexOf name + 1) ++ c :: t)
      else
        let seen' := seen ++ [name]
        if c = '@' then
          let (o, t) := specReplaceNamedAux rest (some []) seen'
          (o, dollarText seen'.length ++ t)
        else
          let (o, t) := specReplaceNamedAux rest none seen'
          (o, dollarText seen'.length ++ c :: t)

def specBuildNamedStatement {V : Type} (named : String → Option V)
    (statement : String) : PreparedStatement V :=
  let (seen, text) := specReplaceNamedAux statement.data none []
  { text := String.mk text, values := seen.map named }

/-! ## Script splitting (postgresAdapter.splitStatements)

`script.split(';').map(part => part.trim()).filter(part =>
part.length > 0)`.  The split is on every `;` with no lexical
awareness. -/

def isJsWhitespace (c : Char) : Bool :=
  c = ' ' || c = '\t' || c = '\n' || c = '\r' ||
    c = '\x0b' || c = '\x0c'

def jsTrim (cs : List Char) : List Char :=
  ((cs.dropWhile isJsWhitespace).reverse.dropWhile isJsWhitespace).reverse

def splitOnSemi : List Char → List (List Char)
  | [] => [[]]
  | c :: rest =>
    if c = ';' then [] :: splitOnSemi rest
    else
      match splitOnSemi rest with
      | [] => [[c]]
      | p :: ps => (c :: p) :: ps

def splitStatements (script : String) : List String :=
  ((((splitOnSemi script.data).map jsTrim).filter (· ≠ [])).map String.mk)

/-- The inverse of splitting: rejoin the parts with `;` between them. -/
def joinSemi : List (List Char) → List Char
  | [] => []
  | [p] => p
  | p :: ps => p ++ ';' :: joinSemi ps

/-- The splitter the spec describes (for comparison with
`splitStatements`): split on `;` only at top level, where a `;` inside
a `'`- or `"`-quoted literal does not terminate a statement. -/
def specSplitAux : List Char → Option Char → List (List Char)
  | [], _ => [[]]
  | c :: rest, some q =>
    let tail := specSplitAux rest (if c = q then none else some q)
    match tail with
    | [] => [[c]]
    | p :: ps => (c :: p) :: ps
  | c :: rest, none =>
    if c = ';' then [] :: specSplitAux rest none
    else
      let tail :=
        specSplitAux rest (if c = '\'' || c = '"' then some c else none)
      match tail with
      | [] => [[c]]
      | p :: ps => (c :: p) :: ps

def specSplitStatements (script : String) : List String :=
  ((((specSplitAux script.data none).map jsTrim).filter (· ≠ [])).map
    String.mk)

/-! ## Helper lemmas -/

theorem applyOps_insert_txn {R : Type} (writes : List R) (c l : List R) :
    applyOps { committed := c, txn := some l } (writes.map .insert) =
      { committed := c, txn := some (l ++ writes) } := by
  induction writes generalizing l with
  | nil => simp [applyOps]
  | cons w ws ih =>
    simp only [List.map_cons, applyOps, List.foldl_cons] at *
    rw [show applyOp { committed := c, txn := some l } (.insert w) =
         { committed := c, txn := some (l ++ [w]) } from rfl]
    rw [ih (l ++ [w])]
    simp

theorem applyOp_begin {R : Type} (d : DbState R) :
    applyOp d .beginTx = { committed := d.committed, txn := some d.committed } :=
  rfl

theorem applyOp_commit {R : Type} (d : DbState R) :
    applyOp d .commitTx = { committed := d.txn.getD d.committed, txn := none } :=
  rfl

theorem applyOp_rollback {R : Type} (d : DbState R) :
    applyOp d .rollbackTx = { committed := d.committed, txn := none } :=
  rfl

theorem pgTransaction_error {R A E : Type} (d : DbState R)
    (writes : List R) (e : E) :
    pgTransaction (A := A) d writes (.error e) =
      (.error e, { committed := d.committed, txn := none }) := by
  simp only [pgTransaction, applyOp_begin, applyOps_insert_txn,
    applyOp_rollback]

theorem pgTransaction_ok {R A E : Type} (d : DbState R)
    (writes : List R) (v : A) :
    pgTransaction (E := E) d writes (.ok v) =
      (.ok v, { committed := d.committed ++ writes, txn := none }) := by
  simp only [pgTransaction, applyOp_begin, applyOps_insert_txn,
    applyOp_commit, Option.getD_some]

theorem sqlJsTransaction_eq_pg {R A E : Type} (d : DbState R)
    (writes : List R) (outcome : Except E A) :
    sqlJsTransaction d writes outcome = pgTransaction d writes outcome := by
  cases outcome <;> rfl

theorem saveToIndexedDb_db {R : Type} (s : IdbState R) :
    (saveToIndexedDb s).db = s.db := by
  unfold saveToIndexedDb
  cases hdb : s.db with
  | none => exact hdb
  | some d => by_cases hc : s.idbConn <;> simp [hc, hdb]

theorem persistIfNeeded_db {R : Type} (s : IdbState R) :
    (persistIfNeeded s).db = s.db := by
  unfold persistIfNeeded
  split
  · exact saveToIndexedDb_db s
  · rfl

theorem idbStep_db {R : Type} (s : IdbState R) (d : DbState R)
    (h : s.db = some d) (op : SqlOp R) :
    (idbStep s op).db = some (applyOp d op) := by
  unfold idbStep
  rw [h]
  rw [persistIfNeeded_db]

theorem idbFold_insert_db {R : Type} (writes : List R) (s : IdbState R)
    (d : DbState R) (h : s.db = some d) :
    (writes.foldl (fun t r => idbStep t (.insert r)) s).db =
      some (applyOps d (writes.map .insert)) := by
  induction writes generalizing s d with
  | nil => simpa [applyOps] using h
  | cons w ws ih =>
    simp only [List.foldl_cons, List.map_cons, applyOps] at *
    exact ih _ _ (idbStep_db s d h (.insert w))

theorem idbTransaction_error_db {R A E : Type} (s : IdbState R)
    (d : DbState R) (h : s.db = some d) (writes : List R) (e : E) :
    (idbTransaction (A := A) s writes (.error e)).1 = .error (.user e) ∧
    ((idbTransaction (A := A) s writes (.error e)).2).db =
      some { committed := d.committed, txn := none } := by
  have h1 : (idbStep s .beginTx).db =
      some { committed := d.committed, txn := some d.committed } := by
    rw [idbStep_db s d h .beginTx, applyOp_begin]
  have h2 : (writes.foldl (fun t r => idbStep t (.insert r))
      (idbStep s .beginTx)).db =
      some { committed := d.committed, txn := some (d.committed ++ writes) } := by
    rw [idbFold_insert_db writes _ _ h1, applyOps_insert_txn]
  constructor
  · simp only [idbTransaction, h]
  · simp only [idbTransaction, h]
    rw [idbStep_db _ _ h2 .rollbackTx, applyOp_rollback]

theorem idbTransaction_ok_db {R A E : Type} (s : IdbState R)
    (d : DbState R) (h : s.db = some d) (writes : List R) (v : A) :
    (idbTransaction (E := E) s writes (.ok v)).1 = .ok v ∧
    ((idbTransaction (E := E) s writes (.ok v)).2).db =
      some { committed := d.committed ++ writes, txn := none } := by
  have h1 : (idbStep s .beginTx).db =
      some { committed := d.committed, txn := some d.committed } := by
    rw [idbStep_db s d h .beginTx, applyOp_begin]
  have h2 : (writes.foldl (fun t r => idbStep t (.insert r))
      (idbStep s .beginTx)).db =
      some { committed := d.committed, txn := some (d.committed ++ writes) } := by
    rw [idbFold_insert_db writes _ _ h1, applyOps_insert_txn]
  constructor
  · simp only [idbTransaction, h]
  · simp only [idbTransaction, h]
    rw [persistIfNeeded_db]
    show (idbStep _ .commitTx).db = _
    rw [idbStep_db _ _ h2 .commitTx, applyOp_commit]
    rfl

theorem attemptCandidates_append_errs {A E : Type}
    (openResult : Candidate → Except E A) (cs : List Candidate)
    (errs : List E) :
    attemptCandidates openResult cs errs =
      match attemptCandidates openResult cs [] with
      | .ok a => .ok a
      | .error es => .error (errs ++ es) := by
  induction cs generalizing errs with
  | nil => simp [attemptCandidates]
  | cons c rest ih =>
    simp only [attemptCandidates]
    cases hr : openResult c with
    | ok a => rfl
    | error e =>
      show attemptCandidates openResult rest (errs ++ [e]) =
        match attemptCandidates openResult rest [e] with
        | .ok a => .ok a
        | .error es => .error (errs ++ es)
      rw [ih (errs ++ [e]), ih [e]]
      cases attemptCandidates openResult rest [] with
      | ok a => rfl
      | error es => simp

theorem attemptCandidates_all_fail {A E : Type}
    (openResult : Candidate → Except E A) (cs : List Candidate)
    (h : ∀ c ∈ cs, ∃ e, openResult c = .error e) :
    attemptCandidates openResult cs [] =
      .error (failureCauses openResult cs) ∧
    (failureCauses openResult cs).length = cs.length := by
  induction cs with
  | nil => exact ⟨rfl, rfl⟩
  | cons c rest ih =>
    obtain ⟨e, he⟩ := h c (List.mem_cons_self c rest)
    have hrest := ih (fun c' hc' => h c' (List.mem_cons_of_mem _ hc'))
    constructor
    · simp only [attemptCandidates, he]
      rw [attemptCandidates_append_errs, hrest.1]
      simp [failureCauses, List.filterMap_cons, he]
    · simp only [failureCauses, List.filterMap_cons, he]
      simp only [failureCauses] at hrest
      simp [hrest.2]

theorem attemptCandidates_first_success {A E : Type}
    (openResult : Candidate → Except E A) (pre post : List Candidate)
    (c : Candidate) (a : A)
    (hpre : ∀ c' ∈ pre, ∃ e, openResult c' = .error e)
    (hc : openResult c = .ok a) :
    attemptCandidates openResult (pre ++ c :: post) [] = .ok a := by
  induction pre with
  | nil => simp [attemptCandidates, hc]
  | cons p pre' ih =>
    obtain ⟨e, he⟩ := hpre p (List.mem_cons_self p pre')
    simp only [List.cons_append, attemptCandidates, he]
    rw [attemptCandidates_append_errs]
    simp only [List.append_eq]
    rw [ih (fun c' h' => hpre c' (List.mem_cons_of_mem _ h'))]

theorem splitOnSemi_ne_nil (cs : List Char) : splitOnSemi cs ≠ [] := by
  cases cs with
  | nil => simp [splitOnSemi]
  | cons c rest =>
    simp only [splitOnSemi]
    split
    · exact List.cons_ne_nil _ _
    · split <;> exact List.cons_ne_nil _ _

theorem joinSemi_cons_cons (c : Char) (p : List Char)
    (ps : List (List Char)) :
    joinSemi ((c :: p) :: ps) = c :: joinSemi (p :: ps) := by
  cases ps <;> simp [joinSemi]

theorem joinSemi_splitOnSemi (cs : List Char) :
    joinSemi (splitOnSemi cs) = cs := by
  induction cs with
  | nil => rfl
  | cons c rest ih =>
    simp only [splitOnSemi]
    split
    · rename_i hc
      cases h : splitOnSemi rest with
      | nil => exact absurd h (splitOnSemi_ne_nil rest)
      | cons p ps =>
        rw [h] at ih
        simp [joinSemi, ih, hc]
    · rename_i hc
      cases h : splitOnSemi rest with
      | nil => exact absurd h (splitOnSemi_ne_nil rest)
      | cons p ps =>
        rw [h] at ih
        show joinSemi ((c :: p) :: ps) = c :: rest
        rw [joinSemi_cons_cons, ih]

theorem mem_splitOnSemi_not_semi (cs : List Char) :
    ∀ p ∈ splitOnSemi cs, ';' ∉ p := by
  induction cs with
  | nil =>
    intro p hp
    simp only [splitOnSemi, List.mem_singleton] at hp
    simp [hp]
  | cons c rest ih =>
    intro p hp
    simp only [splitOnSemi] at hp
    by_cases hc : c = ';'
    · rw [if_pos hc] at hp
      rcases List.mem_cons.mp hp with h1 | h1
      · simp [h1]
      · exact ih p h1
    · rw [if_neg hc] at hp
      cases h : splitOnSemi rest with
      | nil => exact absurd h (splitOnSemi_ne_nil rest)
      | cons q qs =>
        rw [h] at hp
        rcases List.mem_cons.mp hp with h1 | h1
        · subst h1
          intro hmem
          rcases List.mem_cons.mp hmem with h2 | h2
          · exact hc h2.symm
          · exact ih q (by rw [h]; exact List.mem_cons_self q qs) h2
        · exact ih p (by rw [h]; exact List.mem_cons_of_mem _ h1)

theorem mem_of_mem_jsTrim {a : Char} {p : List Char} (h : a ∈ jsTrim p) :
    a ∈ p := by
  unfold jsTrim at h
  rw [List.mem_reverse] at h
  have h2 := (List.dropWhile_sublist _).subset h
  rw [List.mem_reverse] at h2
  exact (List.dropWhile_sublist _).subset h2

theorem replaceNamedAux_spec (cs : List Char) :
    ∀ (mode : Option (List Char)) (order : List String),
    replaceNamedAux cs mode order =
      (order ++ namedOccurrencesAux cs mode,
       renderNamedAux cs mode order.length) := by
  induction cs with
  | nil =>
    intro mode order
    cases mode with
    | none => simp [replaceNamedAux, namedOccurrencesAux, renderNamedAux]
    | some acc =>
      by_cases ha : acc.isEmpty <;>
        simp [replaceNamedAux, namedOccurrencesAux, renderNamedAux, ha]
  | cons c rest ih =>
    intro mode order
    cases mode with
    | none =>
      by_cases hc : c = '@' <;>
        simp [replaceNamedAux, namedOccurrencesAux, renderNamedAux, hc, ih]
    | some acc =>
      by_cases hi : isIdentChar c
      · simp [replaceNamedAux, namedOccurrencesAux, renderNamedAux, hi, ih]
      · by_cases ha : acc.isEmpty
        · by_cases hc : c = '@'
          · subst hc
            simp [replaceNamedAux, namedOccurrencesAux, renderNamedAux,
              hi, ha, ih]
          · simp [replaceNamedAux, namedOccurrencesAux, renderNamedAux,
              hi, ha, hc, ih]
        · by_cases hc : c = '@'
          · subst hc
            simp [replaceNamedAux, namedOccurrencesAux, renderNamedAux,
              hi, ha, ih, List.append_assoc]
          · simp [replaceNamedAux, namedOccurrencesAux, renderNamedAux,
              hi, ha, hc, ih, List.append_assoc]

/-! ## Claim theorems -/

/-- C9: under the last-write-wins conflict strategy, for every
conflicting pair of records with timestamps `t_l` (local) and `t_r`
(remote), the surviving record is the one with `max(t_l, t_r)`, the
survivor is always one of the two records, and the resolution is the
deterministic rule that prefers remote exactly when `t_l ≤ t_r` — so
equal timestamps prefer the remote record. -/
theorem claim9_last_write_wins {V : Type} (localRec remoteRec : SyncRecord V) :
    (lastWriteWins localRec remoteRec).updated_at =
      max localRec.updated_at remoteRec.updated_at ∧
    (lastWriteWins localRec remoteRec = localRec ∨
      lastWriteWins localRec remoteRec = remoteRec) ∧
    lastWriteWins localRec remoteRec =
      (if localRec.updated_at ≤ remoteRec.updated_at then remoteRec
       else localRec) := by
  unfold lastWriteWins
  by_cases h : localRec.updated_at ≤ remoteRec.updated_at
  · simp [h, max_eq_right h]
  · simp [h, max_eq_left (le_of_not_le h)]

/-- C7 counterexample: the sql.js adapter's `run` does **not** normalise
the row id.  With the engine returning a 64-bit id as a bigint, `run`
returns the bigint unchanged, not its decimal string as the claim's
normalisation would produce. -/
theorem claim7_counterexample :
    sqlJsRunResult ⟨1, some (.bigint 9223372036854775807)⟩ =
      ⟨1, .bigint 9223372036854775807⟩ ∧
    normaliseRowId (some (.bigint 9223372036854775807)) =
      .str "9223372036854775807" ∧
    sqlJsRunResult ⟨1, some (.bigint 9223372036854775807)⟩ ≠
      ⟨1, .str "9223372036854775807"⟩ := by
  refine ⟨rfl, by decide, by decide⟩

/-- C7 amended: on the sql.js adapter `run` returns the engine's
`getRowsModified()` as `changes` and passes the raw
`SELECT last_insert_rowid()` cell through unchanged (`null` when
absent), with no normalisation; the described normalisation (numbers
and strings pass through, bigints outside native precision are
stringified, otherwise null) is performed by the IndexedDB adapter's
`run`, whose row id equals the normalisation of the sql.js result and
is never a bigint. -/
theorem claim7_rowid_passthrough (e : SqlJsEngine) :
    (sqlJsRunResult e).changes = e.rowsModified ∧
    (idbRunResult e).changes = e.rowsModified ∧
    (sqlJsRunResult e).lastInsertRowid = e.lastRowIdCell.getD .nullv ∧
    (idbRunResult e).lastInsertRowid =
      normaliseRowId (some (sqlJsRunResult e).lastInsertRowid) ∧
    (∀ n, normaliseRowId (some (.num n)) = .num n) ∧
    (∀ s, normaliseRowId (some (.str s)) = .str s) ∧
    (∀ n, normaliseRowId (some (.bigint n)) = .str (toString n)) ∧
    (∀ n, (idbRunResult e).lastInsertRowid ≠ .bigint n) := by
  refine ⟨rfl, rfl, rfl, ?_, fun _ => rfl, fun _ => rfl, fun _ => rfl, ?_⟩
  · cases h : e.lastRowIdCell with
    | none => simp [idbRunResult, sqlJsRunResult, h, normaliseRowId]
    | some v =>
      cases v <;> simp [idbRunResult, sqlJsRunResult, h, normaliseRowId]
  · intro n
    cases h : e.lastRowIdCell with
    | none => simp [idbRunResult, h, normaliseRowId]
    | some v =>
      cases v <;> simp [idbRunResult, h, normaliseRowId]

/-- C10: every priority-list entry (including the environment override)
that is neither `'better-sqlite3'` nor `'capacitor'` falls through the
`switch` default and is mapped to the sql.js factory under the name
`'sqljs'`; resolution with an unrecognised kind therefore attempts the
sql.js adapter as its only candidate. -/
theorem claim10_unknown_kind_maps_to_sqljs (fp name : String)
    (h1 : name ≠ "better-sqlite3") (h2 : name ≠ "capacitor") :
    candidateFor fp name = ⟨"sqljs", .sqljs⟩ ∧
    resolverCandidates fp (some name) none false =
      [⟨"sqljs", .sqljs⟩] ∧
    (∀ l : List String,
      resolverCandidates fp none (some (name :: l)) false =
        ⟨"sqljs", .sqljs⟩ :: l.map (candidateFor fp)) := by
  refine ⟨?_, ?_, ?_⟩ <;>
    simp [candidateFor, h1, h2, resolverCandidates, resolverPriority]

/-- Witness for C10 at the unrecognised kind `"postgres"`. -/
theorem claim10_witness :
    candidateFor "/data/app.sqlite3" "postgres" = ⟨"sqljs", .sqljs⟩ ∧
    resolverCandidates "/data/app.sqlite3" (some "postgres") none false =
      [⟨"sqljs", .sqljs⟩] := by
  have h := claim10_unknown_kind_maps_to_sqljs "/data/app.sqlite3"
    "postgres" (by decide) (by decide)
  exact ⟨h.1, h.2.1⟩

/-- C3: the claim's promised write-through does not happen.  On an
engine just opened with `autoSave` enabled, the auto-save interval
timer is already running, so `persistIfNeeded`'s
`autoSave && !saveTimer` guard is false: the first mutating `run` sets
`dirty` but performs **no** immediate persistence — the blob in the
store is left untouched until a timer tick, contradicting the
documented "immediate save on first write, then batched". -/
theorem claim3_autosave_never_writes_through (prior : Option (List Nat))
    (r : Nat) :
    (idbOpen prior true : IdbState Nat).saveTimer = true ∧
    idbRun (idbOpen prior true) (.insert r) =
      .ok { db := some { committed := prior.getD [] ++ [r], txn := none }
            idbConn := true
            blob := prior
            saveTimer := true
            dirty := true
            autoSave := true } ∧
    (∀ s : IdbState Nat,
      s.saveTimer = true →
        persistIfNeeded s = s) := by
  refine ⟨rfl, ?_, ?_⟩
  · simp [idbRun, idbOpen, idbStep, persistIfNeeded, applyOp]
  · intro s hs
    simp [persistIfNeeded, hs]

/-- Witness for C3 (discharging the inner timer hypothesis at a
concrete state): a freshly opened empty engine with `autoSave` has the
timer running, and inserting the row `0` mutates the in-memory database
and sets `dirty` while leaving the stored blob empty. -/
theorem claim3_witness :
    (idbOpen none true : IdbState Nat).saveTimer = true ∧
    idbRun (idbOpen none true) (.insert 0) =
      .ok { db := some { committed := [0], txn := none }
            idbConn := true
            blob := none
            saveTimer := true
            dirty := true
            autoSave := true } ∧
    persistIfNeeded (idbOpen none true : IdbState Nat) =
      idbOpen none true := by
  have h := claim3_autosave_never_writes_through none 0
  exact ⟨h.1, h.2.1, h.2.2 _ rfl⟩

/-- C1: for each adapter implementing `transaction` (Postgres, sql.js,
IndexedDB) and every caller-provided function — modelled by the writes
it performs through the adapter and its outcome — the wrapper runs the
function between `BEGIN` and `COMMIT`; when the function throws, the
adapter issues `ROLLBACK` and rethrows the same error, and the database
state afterwards equals the state before the call (rows inserted inside
the function are absent); when it resolves, its writes are committed. -/
theorem claim1_transaction_rollback {R A E : Type} (d : DbState R)
    (writes : List R) (e : E) (v : A) (s : IdbState R) (dI : DbState R)
    (hd : d.txn = none) (hs : s.db = some dI) :
    pgTransaction (A := A) d writes (.error e) = (.error e, d) ∧
    pgTransaction (E := E) d writes (.ok v) =
      (.ok v, { committed := d.committed ++ writes, txn := none }) ∧
    sqlJsTransaction (A := A) d writes (.error e) = (.error e, d) ∧
    sqlJsTransaction (E := E) d writes (.ok v) =
      (.ok v, { committed := d.committed ++ writes, txn := none }) ∧
    (idbTransaction (A := A) s writes (.error e)).1 = .error (.user e) ∧
    ((idbTransaction (A := A) s writes (.error e)).2).db =
      some { committed := dI.committed, txn := none } ∧
    (idbTransaction (E := E) s writes (.ok v)).1 = .ok v ∧
    ((idbTransaction (E := E) s writes (.ok v)).2).db =
      some { committed := dI.committed ++ writes, txn := none } := by
  have hrec : ({ committed := d.committed, txn := none } : DbState R) = d := by
    cases d
    simp_all
  refine ⟨?_, pgTransaction_ok d writes v, ?_,
    ?_, (idbTransaction_error_db s dI hs writes e).1,
    (idbTransaction_error_db s dI hs writes e).2,
    (idbTransaction_ok_db s dI hs writes v).1,
    (idbTransaction_ok_db s dI hs writes v).2⟩
  · rw [pgTransaction_error, hrec]
  · rw [sqlJsTransaction_eq_pg, pgTransaction_error, hrec]
  · rw [sqlJsTransaction_eq_pg]
    exact pgTransaction_ok d writes v

/-- Witness for C1: with committed row `1`, a function inserting `2`
and `3` then throwing `"boom"` leaves the database at `[1]` on every
adapter and rethrows `"boom"`; the same function resolving with `42`
commits `[1, 2, 3]`. -/
theorem claim1_witness :
    pgTransaction (A := Nat) (⟨[1], none⟩ : DbState Nat) [2, 3]
      (.error "boom") = (.error "boom", ⟨[1], none⟩) ∧
    pgTransaction (E := String) (⟨[1], none⟩ : DbState Nat) [2, 3]
      (.ok 42) = (.ok 42, ⟨[1, 2, 3], none⟩) ∧
    (idbTransaction (A := Nat) (idbOpen (some [1]) true) [2, 3]
      (.error "boom")).1 = .error (.user "boom") ∧
    ((idbTransaction (A := Nat) (idbOpen (some [1]) true) [2, 3]
      (.error "boom")).2).db = some ⟨[1], none⟩ := by
  have h := claim1_transaction_rollback (⟨[1], none⟩ : DbState Nat)
    [2, 3] "boom" 42 (idbOpen (some [1]) true) ⟨[1], none⟩ rfl rfl
  exact ⟨h.1, h.2.1, h.2.2.2.2.1, h.2.2.2.2.2.1⟩

/-- C4: `close()` on an open blob-persisted engine stops the auto-save
timer, performs one final persistence exactly when `dirty` is set
(leaving the stored blob at the engine's committed state, and otherwise
untouched), closes the SQL engine and the key-value handle, and leaves
`dirty` false. -/
theorem claim4_close_clears_dirty {R : Type} (s : IdbState R)
    (d : DbState R) (hdb : s.db = some d) (hconn : s.idbConn = true) :
    (idbClose s).saveTimer = false ∧
    (idbClose s).dirty = false ∧
    (idbClose s).db = none ∧
    (idbClose s).idbConn = false ∧
    (idbClose s).blob =
      (if s.dirty then some d.committed else s.blob) := by
  unfold idbClose saveToIndexedDb
  by_cases hd : s.dirty <;> simp [hd, hdb, hconn]

/-- Witness for C4: closing a dirty open engine holding committed row
`5` persists `[5]` and resets `dirty`. -/
theorem claim4_witness :
    (idbClose (⟨some ⟨[5], none⟩, true, none, true, true, true⟩ :
      IdbState Nat)).dirty = false ∧
    (idbClose (⟨some ⟨[5], none⟩, true, none, true, true, true⟩ :
      IdbState Nat)).blob = some [5] := by
  have h := claim4_close_clears_dirty
    (⟨some ⟨[5], none⟩, true, none, true, true, true⟩ : IdbState Nat)
    ⟨[5], none⟩ rfl rfl
  exact ⟨h.2.1, by simpa using h.2.2.2.2⟩

/-- C5: the resolver tries the candidates in order through
factory-plus-`open`; the first candidate whose open succeeds is
returned; if every candidate fails, the result is the resolution error
whose causes list contains exactly one cause per failed candidate, in
attempt order. -/
theorem claim5_resolver_order_and_causes {A E : Type}
    (openResult : Candidate → Except E A) :
    (∀ fp env optPrio cap,
      resolveStorageAdapter fp env optPrio cap openResult =
        attemptCandidates openResult
          (resolverCandidates fp env optPrio cap) []) ∧
    (∀ pre c post a, (∀ c' ∈ pre, ∃ err, openResult c' = .error err) →
      openResult c = .ok a →
      attemptCandidates openResult (pre ++ c :: post) [] = .ok a) ∧
    (∀ cands, (∀ c ∈ cands, ∃ err, openResult c = .error err) →
      attemptCandidates openResult cands [] =
        .error (failureCauses openResult cands) ∧
      (failureCauses openResult cands).length = cands.length) :=
  ⟨fun _ _ _ _ => rfl,
   fun pre c post a h1 h2 =>
     attemptCandidates_first_success openResult pre post c a h1 h2,
   fun cands h => attemptCandidates_all_fail openResult cands h⟩

/-- Witness for C5: with the better-sqlite3 candidate failing and the
sql.js candidate opening, resolution returns the sql.js adapter; with
both failing, the causes are the two failures in attempt order. -/
theorem claim5_witness :
    attemptCandidates
      (fun c => if c.name = "sqljs" then (.ok () : Except String Unit)
                else .error c.name)
      ([⟨"better-sqlite3", .betterSqlite "/p"⟩] ++
        ⟨"sqljs", .sqljs⟩ :: []) [] = .ok () ∧
    attemptCandidates (fun c => (.error c.name : Except String Unit))
      [⟨"better-sqlite3", .betterSqlite "/p"⟩, ⟨"sqljs", .sqljs⟩] [] =
      .error ["better-sqlite3", "sqljs"] ∧
    (failureCauses (fun c => (.error c.name : Except String Unit))
      [⟨"better-sqlite3", .betterSqlite "/p"⟩,
       ⟨"sqljs", .sqljs⟩]).length = 2 := by
  have h1 := (claim5_resolver_order_and_causes
      (fun c => if c.name = "sqljs" then (.ok () : Except String Unit)
                else .error c.name)).2.1
    [⟨"better-sqlite3", .betterSqlite "/p"⟩] ⟨"sqljs", .sqljs⟩ [] ()
    (by
      intro c' hc'
      rw [List.mem_singleton] at hc'
      subst hc'
      exact ⟨"better-sqlite3", rfl⟩)
    rfl
  have h2 := (claim5_resolver_order_and_causes
      (fun c => (.error c.name : Except String Unit))).2.2
    [⟨"better-sqlite3", .betterSqlite "/p"⟩, ⟨"sqljs", .sqljs⟩]
    (fun c _ => ⟨c.name, rfl⟩)
  refine ⟨h1, ?_, by simpa using h2.2⟩
  rw [h2.1]
  rfl

/-- C6: when the `STORAGE_ADAPTER` environment override is set to a
known kind, the first candidate attempted is that kind (regardless of
any caller priority list); otherwise the first candidate is the head of
the caller's list, or of the runtime default
(`capacitor` on a Capacitor runtime, `better-sqlite3` elsewhere) when
no list is supplied. -/
theorem claim6_env_override_first (fp e l0 : String) (rest : List String)
    (cap : Bool) (he : e ∈ knownKinds) (hl0 : l0 ∈ knownKinds) :
    (∀ optPrio,
      (resolverCandidates fp (some e) optPrio cap).head?.map
        Candidate.name = some e) ∧
    ((resolverCandidates fp none (some (l0 :: rest)) cap).head?.map
        Candidate.name = some l0) ∧
    ((resolverCandidates fp none none true).head?.map
        Candidate.name = some "capacitor") ∧
    ((resolverCandidates fp none none false).head?.map
        Candidate.name = some "better-sqlite3") := by
  have hname : ∀ x ∈ knownKinds, (candidateFor fp x).name = x := by
    intro x hx
    simp only [knownKinds, List.mem_cons, List.not_mem_nil, or_false] at hx
    rcases hx with rfl | rfl | rfl <;> rfl
  refine ⟨fun optPrio => ?_, ?_, ?_, ?_⟩
  · simp [resolverCandidates, resolverPriority, hname e he]
  · simp [resolverCandidates, resolverPriority, hname l0 hl0]
  · simp [resolverCandidates, resolverPriority, candidateFor]
  · simp [resolverCandidates, resolverPriority, candidateFor]

/-- Witness for C6: override `"capacitor"` is attempted first even with
a different caller list; without an override, the head `"sqljs"` of the
caller list is attempted first. -/
theorem claim6_witness :
    (resolverCandidates "/p" (some "capacitor")
      (some ["better-sqlite3"]) false).head?.map Candidate.name =
      some "capacitor" ∧
    (resolverCandidates "/p" none (some ["sqljs", "better-sqlite3"])
      false).head?.map Candidate.name = some "sqljs" := by
  have h := claim6_env_override_first "/p" "capacitor" "sqljs"
    ["better-sqlite3"] false (by decide) (by decide)
  exact ⟨h.1 (some ["better-sqlite3"]), h.2.1⟩

/-- Witness for C7 amended at an engine state with a plain numeric id:
`changes` is the rows-modified count and the numeric id passes through
both adapters. -/
theorem claim7_witness :
    (sqlJsRunResult ⟨3, some (.num 7)⟩).changes = 3 ∧
    (idbRunResult ⟨3, some (.num 7)⟩).lastInsertRowid = .num 7 := by
  have h := claim7_rowid_passthrough ⟨3, some (.num 7)⟩
  exact ⟨h.1, by rw [h.2.2.2.1]; rfl⟩

/-- C2 counterexample: a statement repeating `@n` twice is translated
with **two** numbered positions (`$1` and `$2`) and a two-entry value
list, not the single reused position the claim describes (shown by the
spec-worded translator `specBuildNamedStatement` producing a different
result on the same input). -/
theorem claim2_counterexample :
    buildNamedStatement (V := Int)
      (fun k => if k = "n" then some 5 else none) "SELECT @n, @n" =
      ⟨"SELECT $1, $2", [some 5, some 5]⟩ ∧
    specBuildNamedStatement (V := Int)
      (fun k => if k = "n" then some 5 else none) "SELECT @n, @n" =
      ⟨"SELECT $1, $1", [some 5]⟩ ∧
    buildNamedStatement (V := Int)
      (fun k => if k = "n" then some 5 else none) "SELECT @n, @n" ≠
      specBuildNamedStatement (V := Int)
        (fun k => if k = "n" then some 5 else none) "SELECT @n, @n" := by
  refine ⟨by decide, by decide, by decide⟩

/-- C2 amended: the Postgres named-placeholder translator assigns each
**occurrence** of an `@ident` marker the next numbered position in
source order (a repeated name gets a fresh number each time, so `@n`
twice produces two positions), and the value list is built by resolving
each occurrence — not each distinct name — through the name map. -/
theorem claim2_fresh_position_per_occurrence {V : Type}
    (named : String → Option V) (statement : String) :
    (buildNamedStatement named statement).values =
      (namedOccurrences statement).map named ∧
    (buildNamedStatement named statement).text =
      String.mk (renderNamed statement) := by
  unfold buildNamedStatement namedOccurrences renderNamed
  rw [replaceNamedAux_spec]
  simp

/-- C8 counterexample: the Postgres `exec` splitter cuts at the `;`
inside the quoted literal `'a;b'`, producing three parts where the
quote-respecting splitter the claim describes produces two. -/
theorem claim8_counterexample :
    splitStatements "INSERT INTO t VALUES ('a;b'); SELECT 1" =
      ["INSERT INTO t VALUES ('a", "b')", "SELECT 1"] ∧
    specSplitStatements "INSERT INTO t VALUES ('a;b'); SELECT 1" =
      ["INSERT INTO t VALUES ('a;b')", "SELECT 1"] ∧
    splitStatements "INSERT INTO t VALUES ('a;b'); SELECT 1" ≠
      specSplitStatements "INSERT INTO t VALUES ('a;b'); SELECT 1" := by
  refine ⟨by decide, by decide, by decide⟩

/-- C8 amended: `exec`'s splitter divides the script at **every** `;`
regardless of quoting, trims each piece and drops empty pieces: every
returned statement is non-empty and contains no `;`, and rejoining the
raw split parts with `;` reconstructs the script exactly (so the split
points are precisely the `;` characters, including those inside quoted
literals). -/
theorem claim8_split_every_semicolon (script : String) :
    (∀ p ∈ splitStatements script, ';' ∉ p.data ∧ p ≠ "") ∧
    joinSemi (splitOnSemi script.data) = script.data := by
  refine ⟨?_, joinSemi_splitOnSemi script.data⟩
  intro p hp
  unfold splitStatements at hp
  rw [List.mem_map] at hp
  obtain ⟨q, hq, rfl⟩ := hp
  rw [List.mem_filter] at hq
  obtain ⟨hq1, hq2⟩ := hq
  rw [List.mem_map] at hq1
  obtain ⟨q0, hq0, rfl⟩ := hq1
  constructor
  · intro hsemi
    exact mem_splitOnSemi_not_semi script.data q0 hq0
      (mem_of_mem_jsTrim hsemi)
  · intro hempty
    have hnil : jsTrim q0 = [] := by
      simpa using congrArg String.data hempty
    rw [hnil] at hq2
    exact absurd rfl (of_decide_eq_true hq2)

/-- Witness for C8 amended at the script `"a;b"`: the part `"a"` is
non-empty and `;`-free, and the raw parts rejoin to the script. -/
theorem claim8_witness :
    (';' ∉ ("a" : String).data ∧ ("a" : String) ≠ "") ∧
    joinSemi (splitOnSemi ("a;b" : String).data) = ("a;b" : String).data := by
  have h := claim8_split_every_semicolon "a;b"
  exact ⟨h.1 "a" (by decide), h.2⟩

end SqlStorage
